import Mathlib

/-
Verification development for the PRCLZ reblocking core
(src/prclz/i_topology.py and src/prclz/steiner_tree.py).

The Python code is shallowly embedded over exact real arithmetic:
  * a coordinate pair (float, float) becomes `Pt = ℝ × ℝ`;
  * igraph vertex/edge sequences become Lean lists kept in insertion
    (vertex-id / edge-id) order;
  * a Python `assert` failure or raised exception becomes `none` of an
    `Option`-valued operation;
  * the external graph-algorithm primitives consumed by the core
    (Dijkstra shortest paths, minimum spanning tree, subgraph
    extraction) are modelled from their documented semantics.
-/

namespace PRCLZ

noncomputable section

open scoped Classical

/-- A 2-d coordinate pair.  Coordinates are vertex identity keys. -/
abbrev Pt : Type := ℝ × ℝ

/-! ## Geometry (i_topology.py, lines 29-125) -/

/-- `distance(a0, a1)`: Euclidean distance, `np.sqrt(np.sum((a0-a1)**2))`. -/
def distance (a b : Pt) : ℝ :=
  Real.sqrt ((a.1 - b.1) ^ 2 + (a.2 - b.2) ^ 2)

/-- Numerator expression of `min_distance_from_point_to_line` (without the
absolute value): `(y2-y1)*x0 - (x2-x1)*y0 + x2*y1 - y2*x1` for
`(x1,y1) = e.1`, `(x2,y2) = e.2`, `(x0,y0) = q`. -/
def lineExpr (e : Pt × Pt) (q : Pt) : ℝ :=
  (e.2.2 - e.1.2) * q.1 - (e.2.1 - e.1.1) * q.2 + e.2.1 * e.1.2 - e.2.2 * e.1.1

/-- Denominator of `min_distance_from_point_to_line`:
`np.sqrt((y2-y1)**2 + (x2-x1)**2)`. -/
def segDen (e : Pt × Pt) : ℝ :=
  Real.sqrt ((e.2.2 - e.1.2) ^ 2 + (e.2.1 - e.1.1) ^ 2)

/-- `min_distance_from_point_to_line(coords, edge_tuple) = num/den`. -/
def min_distance_from_point_to_line (c : Pt) (e : Pt × Pt) : ℝ :=
  |lineExpr e c| / segDen e

/-- `node_on_edge(edge_tuple, coords)`: compares the distance from `coords`
to the segment midpoint against the distance from an endpoint to the
midpoint.  The source's midpoint sanity assertion
`np.sum(np.abs(qc0-qc1)) < 10e-4` compares the two endpoint-to-midpoint
distances, which are equal by construction in exact arithmetic, so it can
never fire and is not modelled. -/
def node_on_edge (e : Pt × Pt) (c : Pt) : Bool :=
  let mid : Pt := ((e.1.1 + e.2.1) / 2, (e.1.2 + e.2.2) / 2)
  let maxd := distance e.1 mid
  let nd := distance c mid
  if nd > maxd then false else true

/-- The two candidate projected points of `vector_projection`:
`a_vector ± min_distance * b_normal` with
`b_vector = edge_tuple[0] - edge_tuple[1]`, `b_unit = b_vector/‖b_vector‖`,
`b_normal = (-b_unit[1], b_unit[0])`. -/
def proj_candidates (e : Pt × Pt) (c : Pt) : Pt × Pt :=
  let b1 := e.1.1 - e.2.1
  let b2 := e.1.2 - e.2.2
  let nrm := Real.sqrt (b1 ^ 2 + b2 ^ 2)
  let bn1 := -(b2 / nrm)
  let bn2 := b1 / nrm
  let d := min_distance_from_point_to_line c e
  ((c.1 + d * bn1, c.2 + d * bn2), (c.1 - d * bn1, c.2 - d * bn2))

/-- `vector_projection(edge_tuple, coords)`: tries `proj1` then `proj2`,
accepting a candidate whose point-to-line distance is below the literal
`10e-4` (that is, `1/1000`); `assert False` when neither passes is `none`.
The source's orthogonality assertion
`np.abs(np.sum(b_normal*b_unit)) < 10e-4` holds identically in exact
arithmetic (`-(b2/n)*(b1/n) + (b1/n)*(b2/n) = 0`) and is not modelled. -/
def vector_projection (e : Pt × Pt) (c : Pt) : Option Pt :=
  if min_distance_from_point_to_line (proj_candidates e c).1 e < 1 / 1000 then
    some (proj_candidates e c).1
  else if min_distance_from_point_to_line (proj_candidates e c).2 e < 1 / 1000 then
    some (proj_candidates e c).2
  else none

/-- `PlanarGraph.closest_point_to_node(edge_tuple, coords)` (a static
method that only uses geometry): the projection when `node_on_edge` holds
for it, otherwise the nearer endpoint (ties toward `edge_tuple[0]`). -/
def closest_point_to_node (e : Pt × Pt) (c : Pt) : Option Pt :=
  (vector_projection e c).map (fun q =>
    if node_on_edge e q then q
    else if distance e.1 c ≤ distance e.2 c then e.1 else e.2)

/-! ## PlanarGraph (i_topology.py, lines 128-301) -/

/-- An igraph edge of a `PlanarGraph`: endpoint coordinates (`name`s of the
two endpoint vertices in endpoint order), `weight`, and `steiner` flag. -/
structure Edge where
  src : Pt
  dst : Pt
  weight : ℝ
  steiner : Bool

/-- A `PlanarGraph`: the vertex sequence `vs` (name, terminal flag) and the
edge sequence `es`, both in insertion order (igraph id order). -/
structure PlanarGraph where
  vertices : List (Pt × Bool)
  edges : List Edge

/-- `self.vs.select(name=coords)`. -/
def PlanarGraph.vertexSeq (g : PlanarGraph) (c : Pt) : List (Pt × Bool) :=
  g.vertices.filter (fun p => p.1 = c)

/-- Whether an edge lies between the unordered coordinate pair
`(c0, c1)` — the model of igraph's `_between=(v0, v1)` selection. -/
def Edge.between (ed : Edge) (c0 c1 : Pt) : Prop :=
  (ed.src = c0 ∧ ed.dst = c1) ∨ (ed.src = c1 ∧ ed.dst = c0)

/-- `self.es.select(_between=(v0, v1))`. -/
def PlanarGraph.edgesBetween (g : PlanarGraph) (c0 c1 : Pt) : List Edge :=
  g.edges.filter (fun ed => ed.between c0 c1)

/-- The flag-overwriting vertex update of `seq[0]['terminal'] = terminal`
(applied through a map; it touches exactly the matching vertices). -/
def updFn (c : Pt) (t : Bool) (p : Pt × Bool) : Pt × Bool :=
  if p.1 = c then (p.1, t) else p

/-- `PlanarGraph.add_node(coords, terminal=False)`: appends a fresh vertex,
overwrites the `terminal` flag of an existing one, and hits
`assert False, "Hacky error - there are duplicate nodes in graph"`
(modelled as `none`) when the name is duplicated. -/
def PlanarGraph.add_node (g : PlanarGraph) (c : Pt) (t : Bool) :
    Option PlanarGraph :=
  if g.vertices.isEmpty then some ⟨g.vertices ++ [(c, t)], g.edges⟩
  else if (g.vertexSeq c).length = 0 then some ⟨g.vertices ++ [(c, t)], g.edges⟩
  else if (g.vertexSeq c).length = 1 then
    some ⟨g.vertices.map (updFn c t), g.edges⟩
  else none

/-- `PlanarGraph.add_edge(coords0, coords1, terminal0=False,
terminal1=False, **kwargs)`: safely adds both nodes, then appends an edge
with `steiner = False` and weight `kwargs['weight']` (modelled by `w`) or
else `distance(coords0, coords1)` — but only when no edge lies between the
two coordinates already. -/
def PlanarGraph.add_edge (g : PlanarGraph) (c0 c1 : Pt) (t0 t1 : Bool)
    (w : Option ℝ) : Option PlanarGraph := do
  let g1 ← g.add_node c0 t0
  let g2 ← g1.add_node c1 t1
  if (g2.edgesBetween c0 c1).isEmpty then
    some ⟨g2.vertices, g2.edges ++ [⟨c0, c1, w.getD (distance c0 c1), false⟩]⟩
  else
    some g2

/-- `PlanarGraph.split_edge_by_node(edge_tuple, coords, terminal=False)`:
if `coords` coincides with an endpoint only that endpoint's flag is set;
otherwise the two endpoint vertices are asserted unique (`none` on
failure), every edge between them is deleted, and the two replacement
edges are added (`terminal1=terminal` on the first, `terminal0=terminal`
on the second). -/
def PlanarGraph.split_edge_by_node (g : PlanarGraph) (et : Pt × Pt) (c : Pt)
    (t : Bool) : Option PlanarGraph :=
  if c = et.1 then some ⟨g.vertices.map (updFn et.1 t), g.edges⟩
  else if c = et.2 then some ⟨g.vertices.map (updFn et.2 t), g.edges⟩
  else
    if (g.vertexSeq et.1).length = 1 then
      if (g.vertexSeq et.2).length = 1 then do
        let g' : PlanarGraph :=
          ⟨g.vertices, g.edges.filter (fun ed => ¬ ed.between et.1 et.2)⟩
        let g'' ← g'.add_edge et.1 c false t none
        g''.add_edge c et.2 t false none
      else none
    else none

/-- `PlanarGraph.edge_to_coords(edge)`. -/
def PlanarGraph.edge_to_coords (ed : Edge) : Pt × Pt := (ed.src, ed.dst)

/-- `np.argmin`: index of the first minimal element of a list. -/
def argminIdx : List ℝ → Nat
  | [] => 0
  | [_] => 0
  | x :: y :: rest =>
    let j := argminIdx (y :: rest)
    if x ≤ (y :: rest).getD j 0 then 0 else j + 1

/-- The per-edge loop body of `add_node_to_closest_edge` applied down a
list (a failing projection assertion aborts the whole operation). -/
def mapOpt (f : α → Option β) : List α → Option (List β)
  | [] => some []
  | x :: xs =>
    match f x with
    | none => none
    | some y => (mapOpt f xs).map (fun ys => y :: ys)

/-- `PlanarGraph.add_node_to_closest_edge(coords, terminal=False)`: for
every non-self-loop edge, compute the closest point on that edge to
`coords` and its distance; `np.argmin` over the collected distances
(raising on an empty list, modelled as `none`); then — exactly as the
source does — index the **unfiltered** edge sequence `self.es` with that
argmin index and split the edge found there. -/
def PlanarGraph.add_node_to_closest_edge (g : PlanarGraph) (c : Pt)
    (t : Bool) : Option PlanarGraph := do
  let pairs ← mapOpt
    (fun ed => (closest_point_to_node (PlanarGraph.edge_to_coords ed) c).map
      (fun q => (q, distance q c)))
    (g.edges.filter (fun ed => ¬ ed.src = ed.dst))
  if pairs.isEmpty then none
  else
    let am := argminIdx (pairs.map (fun pr => pr.2))
    let closest := (pairs.map (fun pr => pr.1)).getD am (0, 0)
    (g.edges[am]?).bind (fun ed =>
      g.split_edge_by_node (PlanarGraph.edge_to_coords ed) closest t)

/-! ## Steiner approximation (steiner_tree.py and i_topology.py lines 7-27)

The networkx variant works over an arbitrary undirected weighted graph,
modelled by `WGraph`.  The consumed library primitives — `all_pairs_dijkstra`
(shortest path and distance to every reachable vertex),
`minimum_spanning_edges` (Kruskal over a stable weight sort),
`get_shortest_paths` and `spanning_tree` on the igraph side, and
`edge_subgraph` — are modelled from their documented semantics. -/

/-- An undirected weighted graph as networkx sees it: a node list (in
insertion order) and an edge list with weights. -/
structure WGraph (V : Type) where
  nodes : List V
  edges : List (V × V × ℝ)

variable {V : Type} [DecidableEq V]

/-- Adjacency of a `WGraph` (undirected: either endpoint order). -/
def WGraph.adj (G : WGraph V) (u v : V) : Prop :=
  ∃ w : ℝ, (u, v, w) ∈ G.edges ∨ (v, u, w) ∈ G.edges

/-- Reachability: the reflexive transitive closure of adjacency.  This is
exactly the set of vertices a Dijkstra sweep from `u` returns distances
for. -/
def WGraph.Reach (G : WGraph V) : V → V → Prop :=
  Relation.ReflTransGen G.adj

/-- Neighbours of `u` along the edge list. -/
def WGraph.neighborsOf (G : WGraph V) (u : V) : List V :=
  G.edges.filterMap (fun e =>
    if e.1 = u then some e.2.1 else if e.2.1 = u then some e.1 else none)

/-- All simple paths from `u` to `v` avoiding `visited`, with enough fuel
to enumerate every simple path of the graph. -/
def simplePathsAux (G : WGraph V) : Nat → V → V → List V → List (List V)
  | 0, u, v, _ => if u = v then [[u]] else []
  | Nat.succ fuel, u, v, visited =>
    if u = v then [[u]]
    else
      ((G.neighborsOf u).filter (fun w => ¬ visited.contains w)).flatMap
        (fun w => (simplePathsAux G fuel w v (u :: visited)).map
          (fun p => u :: p))

/-- All simple paths from `u` to `v`. -/
def WGraph.simplePaths (G : WGraph V) (u v : V) : List (List V) :=
  simplePathsAux G G.nodes.length u v []

/-- Weight of the edge between `a` and `b` (first matching edge). -/
def WGraph.edgeWeight (G : WGraph V) (a b : V) : ℝ :=
  match G.edges.find? (fun e => (e.1 = a ∧ e.2.1 = b) ∨ (e.1 = b ∧ e.2.1 = a)) with
  | some e => e.2.2
  | none => 0

/-- Total weight of a path (sum of the weights of consecutive edges). -/
def WGraph.pathWeight (G : WGraph V) : List V → ℝ
  | [] => 0
  | [_] => 0
  | a :: b :: rest => G.edgeWeight a b + G.pathWeight (b :: rest)

/-- First element of a list minimising `f` (deterministic tie-break). -/
def minBy (f : α → ℝ) : List α → Option α
  | [] => none
  | x :: xs =>
    match minBy f xs with
    | none => some x
    | some y => if f x ≤ f y then some x else some y

/-- The Dijkstra primitive, modelled by its specification: the weight-wise
shortest path from `u` to `v` together with its total distance, `none`
exactly when `v` is unreachable from `u`. -/
def WGraph.spInfo (G : WGraph V) (u v : V) : Option (ℝ × List V) :=
  (minBy (G.pathWeight) (G.simplePaths u v)).map (fun p => (G.pathWeight p, p))

/-- `itertools.combinations(l, 2)` in source order. -/
def pairsOf : List α → List (α × α)
  | [] => []
  | x :: xs => xs.map (fun y => (x, y)) ++ pairsOf xs

/-- `metric_closure(G)` (steiner_tree.py): errors (`none`) for an empty
graph (`next` on an empty all-pairs iterator) or — the connectivity
check — when some node is unreachable from the first node processed;
otherwise the complete closure graph over all nodes, each unordered pair
tagged with its shortest-path distance and path. -/
def metric_closure (G : WGraph V) : Option (List (V × V × ℝ × List V)) :=
  match G.nodes with
  | [] => none
  | u :: _ =>
    if G.nodes.all (fun v => !(G.simplePaths u v).isEmpty) then
      some ((pairsOf G.nodes).filterMap (fun p =>
        (G.spInfo p.1 p.2).map (fun dp => (p.1, p.2, dp.1, dp.2))))
    else none

/-- `networkx.utils.pairwise`: consecutive pairs. -/
def consecPairs : List α → List (α × α)
  | [] => []
  | [_] => []
  | a :: b :: rest => (a, b) :: consecPairs (b :: rest)

/-- Reachability along a plain list of endpoint pairs (used to decide
whether a candidate MST edge would close a cycle). -/
def ReachE (es : List (α × α)) (u v : α) : Prop :=
  Relation.ReflTransGen (fun a b => (a, b) ∈ es ∨ (b, a) ∈ es) u v

/-- Stable insertion into a weight-sorted list of closure edges
(`α × α × ℝ × β`: endpoints, weight, payload). -/
def insertByWeight (x : α × α × ℝ × β) :
    List (α × α × ℝ × β) → List (α × α × ℝ × β)
  | [] => [x]
  | y :: ys => if y.2.2.1 ≤ x.2.2.1 then y :: insertByWeight x ys
               else x :: y :: ys

/-- Stable sort of closure edges by weight. -/
def sortByWeight : List (α × α × ℝ × β) → List (α × α × ℝ × β)
  | [] => []
  | x :: xs => insertByWeight x (sortByWeight xs)

/-- Kruskal scan: keep an edge whenever its endpoints are not already
connected by the kept edges. -/
def kruskalAux : List (α × α × ℝ × β) → List (α × α × ℝ × β) →
    List (α × α × ℝ × β)
  | chosen, [] => chosen
  | chosen, e :: rest =>
    if ReachE (chosen.map (fun ch => (ch.1, ch.2.1))) e.1 e.2.1 then
      kruskalAux chosen rest
    else kruskalAux (chosen ++ [e]) rest

/-- The minimum-spanning-tree primitive (networkx
`minimum_spanning_edges`, igraph `spanning_tree`), modelled as Kruskal
over a stable weight sort. -/
def kruskal (l : List (α × α × ℝ × β)) : List (α × α × ℝ × β) :=
  kruskalAux [] (sortByWeight l)

/-- `steiner_tree(G, terminal_nodes)` (steiner_tree.py): the metric
closure (propagating its connectivity error), restricted to the
terminal-induced subgraph, its MST by the `distance` attribute, and the
edge-induced subgraph of `G` over the union of the MST edges' stored
paths. -/
def steiner_tree (G : WGraph V) (T : List V) : Option (List (V × V × ℝ)) :=
  match metric_closure G with
  | none => none
  | some M =>
    let H := M.filter (fun e => e.1 ∈ T ∧ e.2.1 ∈ T)
    let mst := kruskal H
    let pe := mst.flatMap (fun e => consecPairs e.2.2.2)
    some (G.edges.filter (fun ed =>
      (ed.1, ed.2.1) ∈ pe ∨ (ed.2.1, ed.1) ∈ pe))

/-- The weighted graph underlying a `PlanarGraph` (the igraph
vertex/edge data on which `get_shortest_paths` runs). -/
def PlanarGraph.toW (g : PlanarGraph) : WGraph Pt :=
  ⟨g.vertices.map (fun p => p.1), g.edges.map (fun ed => (ed.src, ed.dst, ed.weight))⟩

/-- Edge ids (`epath`) of a vertex path in a `PlanarGraph`: for each
consecutive pair, the id of the first edge between them. -/
def pathEdgeIdxs (g : PlanarGraph) (p : List Pt) : List Nat :=
  (consecPairs p).filterMap (fun ab =>
    g.edges.findIdx? (fun ed =>
      (ed.src = ab.1 ∧ ed.dst = ab.2) ∨ (ed.src = ab.2 ∧ ed.dst = ab.1)))

/-- `H.add_edge(u['name'], v['name'], weight=..., path=...)` on the
closure graph `H`: a no-op when an edge between the unordered pair
already exists, otherwise an append. -/
def closureInsert (acc : List (Pt × Pt × ℝ × List Nat)) (u v : Pt) (d : ℝ)
    (ep : List Nat) : List (Pt × Pt × ℝ × List Nat) :=
  if acc.any (fun h => (h.1 = u ∧ h.2.1 = v) ∨ (h.1 = v ∧ h.2.1 = u)) then acc
  else acc ++ [(u, v, d, ep)]

/-- The closure-building loop of `igraph_steiner_tree`: for each terminal
pair, `get_shortest_paths` (`epath` empty exactly when the pair is
disconnected, in which case the `reduce` over the empty edge-weight
sequence raises — modelled as `none`), the summed path distance, and an
`H.add_edge` call. -/
def buildClosure (g : PlanarGraph) :
    List (Pt × Pt) → List (Pt × Pt × ℝ × List Nat) →
    Option (List (Pt × Pt × ℝ × List Nat))
  | [], acc => some acc
  | (u, v) :: rest, acc =>
    match (g.toW).spInfo u v with
    | none => none
    | some dp => buildClosure g rest (closureInsert acc u v dp.1 (pathEdgeIdxs g dp.2))

/-- `igraph_steiner_tree(G, terminal_vertices)` (i_topology.py lines
7-27): builds the closure graph `H` over the terminal pairs, takes its
MST, and concatenates the stored underlying paths of the MST edges. -/
def igraph_steiner_tree (g : PlanarGraph) (terminals : List Pt) :
    Option (List Nat) :=
  (buildClosure g (pairsOf terminals) []).map
    (fun H => (kruskal H).flatMap (fun h => h.2.2.2))

/-- `PlanarGraph.steiner_tree_approx()`: terminals are the vertices with
`terminal=True`; every edge whose id the approximation returns gets its
`steiner` flag set. -/
def PlanarGraph.steiner_tree_approx (g : PlanarGraph) : Option PlanarGraph :=
  match igraph_steiner_tree g
      ((g.vertices.filter (fun p => p.2 = true)).map (fun p => p.1)) with
  | none => none
  | some idxs =>
    some ⟨g.vertices, (g.edges.enum).map (fun pr =>
      if pr.1 ∈ idxs then ⟨pr.2.src, pr.2.dst, pr.2.weight, true⟩ else pr.2)⟩

/-! ## Basic lemmas about the PlanarGraph operations -/

lemma PlanarGraph.add_node_eq (g : PlanarGraph) (c : Pt) (t : Bool) :
    g.add_node c t =
      if (g.vertexSeq c).length = 0 then some ⟨g.vertices ++ [(c, t)], g.edges⟩
      else if (g.vertexSeq c).length = 1 then
        some ⟨g.vertices.map (updFn c t), g.edges⟩
      else none := by
  unfold PlanarGraph.add_node
  by_cases h : g.vertices.isEmpty
  · have hv : g.vertices = [] := by simpa [List.isEmpty_iff] using h
    simp [h, PlanarGraph.vertexSeq, hv]
  · simp [h]

lemma updFn_fst (c : Pt) (t : Bool) (p : Pt × Bool) : (updFn c t p).1 = p.1 := by
  unfold updFn; split <;> rfl

lemma map_eq_self_of_forall {α : Type} {l : List α} {f : α → α}
    (h : ∀ a ∈ l, f a = a) : l.map f = l := by
  induction l with
  | nil => rfl
  | cons x xs ih =>
    simp only [List.map_cons, h x (by simp)]
    rw [ih (fun a ha => h a (by simp [ha]))]

lemma vertexSeq_append_self (g : PlanarGraph) (c : Pt) (t : Bool) :
    (PlanarGraph.mk (g.vertices ++ [(c, t)]) g.edges).vertexSeq c
      = g.vertexSeq c ++ [(c, t)] := by
  simp [PlanarGraph.vertexSeq, List.filter_append]

lemma vertexSeq_append_other (g : PlanarGraph) (c c' : Pt) (t : Bool)
    (h : c' ≠ c) :
    (PlanarGraph.mk (g.vertices ++ [(c, t)]) g.edges).vertexSeq c'
      = g.vertexSeq c' := by
  simp [PlanarGraph.vertexSeq, List.filter_append, Ne.symm h]

lemma vertexSeq_map_upd (g : PlanarGraph) (c : Pt) (t : Bool) (c' : Pt) :
    (PlanarGraph.mk (g.vertices.map (updFn c t)) g.edges).vertexSeq c'
      = (g.vertexSeq c').map (updFn c t) := by
  show (g.vertices.map (updFn c t)).filter (fun p => decide (p.1 = c'))
      = ((g.vertices.filter (fun p => decide (p.1 = c'))).map (updFn c t))
  rw [List.filter_map]
  congr 1
  apply List.filter_congr
  intro p _
  simp [Function.comp, updFn_fst]

lemma add_node_sound (g : PlanarGraph) (c : Pt) (t : Bool)
    (h : (g.vertexSeq c).length ≤ 1) :
    ∃ g', g.add_node c t = some g' ∧ g'.edges = g.edges ∧
      (g'.vertexSeq c).length = 1 ∧
      (∀ c', c' ≠ c → g'.vertexSeq c' = g.vertexSeq c') ∧
      ((g.vertexSeq c).length = 0 → g'.vertices = g.vertices ++ [(c, t)]) ∧
      ((g.vertexSeq c).length = 1 → g'.vertices = g.vertices.map (updFn c t)) := by
  rw [PlanarGraph.add_node_eq]
  rcases Nat.le_one_iff_eq_zero_or_eq_one.mp h with h0 | h1
  · refine ⟨⟨g.vertices ++ [(c, t)], g.edges⟩, by simp [h0], rfl, ?_, ?_, ?_, ?_⟩
    · rw [vertexSeq_append_self, List.length_append,
        List.length_eq_zero.mp h0]
      rfl
    · intro c' hc'
      exact vertexSeq_append_other g c c' t hc'
    · intro _; rfl
    · intro h1'; rw [h0] at h1'; cases h1'
  · refine ⟨⟨g.vertices.map (updFn c t), g.edges⟩, by simp [h1], rfl, ?_, ?_, ?_, ?_⟩
    · rw [vertexSeq_map_upd, List.length_map, h1]
    · intro c' hc'
      rw [vertexSeq_map_upd]
      apply map_eq_self_of_forall
      intro p hp
      have hpf : p.1 = c' := by
        have hm := (List.mem_filter.mp hp).2
        simpa using hm
      unfold updFn
      rw [if_neg]
      rw [hpf]
      exact hc'
    · intro h0'; rw [h0'] at h1; cases h1
    · intro _; rfl

/-- Claim C7: for every graph (with no duplicated vertex name at the
coordinate, the invariant the source asserts) and point coordinate,
`add_node` creates a new vertex with the supplied terminal flag when the
coordinate is absent; when it is present it creates no new vertex, leaves
the names unchanged and overwrites the terminal flag with the supplied
value; and calling it a second time with the same coordinate and flag
leaves vertex and edge counts unchanged relative to calling it once. -/
theorem add_node_spec (g : PlanarGraph) (c : Pt) (t : Bool)
    (h : (g.vertexSeq c).length ≤ 1) :
    ∃ g1, g.add_node c t = some g1 ∧ g1.edges = g.edges ∧
      ((g.vertexSeq c).length = 0 → g1.vertices = g.vertices ++ [(c, t)]) ∧
      ((g.vertexSeq c).length = 1 →
        g1.vertices.length = g.vertices.length ∧
        g1.vertices.map Prod.fst = g.vertices.map Prod.fst ∧
        ∀ pr ∈ g1.vertices, pr.1 = c → pr.2 = t) ∧
      ∃ g2, g1.add_node c t = some g2 ∧
        g2.vertices.length = g1.vertices.length ∧ g2.edges = g1.edges := by
  obtain ⟨g1, hg1, hedges, hlen1, hother, habs, hpres⟩ := add_node_sound g c t h
  refine ⟨g1, hg1, hedges, habs, ?_, ?_⟩
  · intro hp
    have hv : g1.vertices = g.vertices.map (updFn c t) := hpres hp
    refine ⟨by rw [hv, List.length_map], ?_, ?_⟩
    · rw [hv, List.map_map]
      apply List.map_congr_left
      intro p _
      exact updFn_fst c t p
    · intro pr hpr hprc
      rw [hv] at hpr
      obtain ⟨p, _, hp⟩ := List.mem_map.mp hpr
      by_cases hc : p.1 = c
      · rw [← hp]
        unfold updFn
        rw [if_pos hc]
      · exfalso
        apply hc
        rw [← hprc, ← hp, updFn_fst]
  · obtain ⟨g2, hg2, hedges2, hlen2, _, _, hpres2⟩ :=
      add_node_sound g1 c t (le_of_eq hlen1)
    refine ⟨g2, hg2, ?_, hedges2⟩
    rw [hpres2 hlen1, List.length_map]

/-- Witness for C7 at the empty graph and coordinate `(0, 0)`. -/
theorem add_node_spec_witness :
    (((⟨[], []⟩ : PlanarGraph).vertexSeq (0, 0)).length ≤ 1) ∧
    (∃ g1, (⟨[], []⟩ : PlanarGraph).add_node (0, 0) true = some g1 ∧
      g1.edges = (⟨[], []⟩ : PlanarGraph).edges ∧
      ((((⟨[], []⟩ : PlanarGraph).vertexSeq (0, 0)).length = 0 →
        g1.vertices = (⟨[], []⟩ : PlanarGraph).vertices ++ [((0, 0), true)])) ∧
      ((((⟨[], []⟩ : PlanarGraph).vertexSeq (0, 0)).length = 1 →
        g1.vertices.length = (⟨[], []⟩ : PlanarGraph).vertices.length ∧
        g1.vertices.map Prod.fst = (⟨[], []⟩ : PlanarGraph).vertices.map Prod.fst ∧
        ∀ pr ∈ g1.vertices, pr.1 = (0, 0) → pr.2 = true)) ∧
      ∃ g2, g1.add_node (0, 0) true = some g2 ∧
        g2.vertices.length = g1.vertices.length ∧ g2.edges = g1.edges) :=
  ⟨by simp [PlanarGraph.vertexSeq],
   add_node_spec ⟨[], []⟩ (0, 0) true (by simp [PlanarGraph.vertexSeq])⟩

lemma edgesBetween_comm (g : PlanarGraph) (a b : Pt) :
    g.edgesBetween a b = g.edgesBetween b a := by
  unfold PlanarGraph.edgesBetween
  apply List.filter_congr
  intro ed _
  simp only [decide_eq_decide]
  unfold Edge.between
  tauto

lemma add_edge_sound (g : PlanarGraph) (c0 c1 : Pt) (t0 t1 : Bool)
    (w : Option ℝ)
    (h0 : (g.vertexSeq c0).length ≤ 1) (h1 : (g.vertexSeq c1).length ≤ 1) :
    ∃ gB, gB.edges = g.edges ∧
      ((g.vertexSeq c0).length = 1 → (g.vertexSeq c1).length = 1 →
        gB.vertices = (g.vertices.map (updFn c0 t0)).map (updFn c1 t1)) ∧
      (gB.vertexSeq c0).length = 1 ∧ (gB.vertexSeq c1).length = 1 ∧
      (∀ c', c' ≠ c0 → c' ≠ c1 → gB.vertexSeq c' = g.vertexSeq c') ∧
      g.add_edge c0 c1 t0 t1 w =
        (if (g.edgesBetween c0 c1).isEmpty then
          some ⟨gB.vertices, gB.edges ++ [⟨c0, c1, w.getD (distance c0 c1), false⟩]⟩
        else some gB) := by
  obtain ⟨gA, hA, hAe, hAlen, hAother, hAabs, hApres⟩ := add_node_sound g c0 t0 h0
  have hc1A : (gA.vertexSeq c1).length ≤ 1 := by
    by_cases hcc : c1 = c0
    · rw [hcc, hAlen]
    · rw [hAother c1 hcc]; exact h1
  obtain ⟨gB, hB, hBe, hBlen, hBother, hBabs, hBpres⟩ :=
    add_node_sound gA c1 t1 hc1A
  have hedges : gB.edges = g.edges := by rw [hBe, hAe]
  have hBc0 : (gB.vertexSeq c0).length = 1 := by
    by_cases hcc : c0 = c1
    · rw [hcc]; exact hBlen
    · rw [hBother c0 hcc]; exact hAlen
  refine ⟨gB, hedges, ?_, hBc0, hBlen, ?_, ?_⟩
  · intro hp0 hp1
    have hA1 : (gA.vertexSeq c1).length = 1 := by
      by_cases hcc : c1 = c0
      · rw [hcc]; exact hAlen
      · rw [hAother c1 hcc]; exact hp1
    rw [hBpres hA1, hApres hp0]
  · intro c' hc0' hc1'
    rw [hBother c' hc1', hAother c' hc0']
  · unfold PlanarGraph.add_edge
    rw [hA]
    simp only [Option.bind_eq_bind, Option.some_bind]
    rw [hB]
    simp only [Option.some_bind]
    have hbeq : gB.edgesBetween c0 c1 = g.edgesBetween c0 c1 := by
      unfold PlanarGraph.edgesBetween; rw [hedges]
    rw [hbeq]

/-- Claim C8: for a sequence of `add_edge` calls on the same unordered pair
of distinct coordinates, exactly one edge connects the pair afterwards and
its weight is the one established by the first successful call (the
supplied weight, else the Euclidean distance); any later call on the pair
(in either endpoint order) adds no edge and changes no edge. -/
theorem add_edge_unique_first_weight (g : PlanarGraph) (c0 c1 : Pt)
    (t0 t1 : Bool) (w : Option ℝ) (hne : c0 ≠ c1)
    (h0 : (g.vertexSeq c0).length ≤ 1) (h1 : (g.vertexSeq c1).length ≤ 1)
    (hnoedge : g.edgesBetween c0 c1 = []) :
    ∃ g1, g.add_edge c0 c1 t0 t1 w = some g1 ∧
      g1.edges = g.edges ++ [⟨c0, c1, w.getD (distance c0 c1), false⟩] ∧
      g1.edgesBetween c0 c1 = [⟨c0, c1, w.getD (distance c0 c1), false⟩] ∧
      ∀ (g2 : PlanarGraph) (a b : Pt) (t0' t1' : Bool) (w' : Option ℝ),
        ((a = c0 ∧ b = c1) ∨ (a = c1 ∧ b = c0)) →
        (g2.vertexSeq a).length ≤ 1 → (g2.vertexSeq b).length ≤ 1 →
        g2.edgesBetween c0 c1 ≠ [] →
        ∃ g3, g2.add_edge a b t0' t1' w' = some g3 ∧ g3.edges = g2.edges := by
  obtain ⟨gB, hedges, _, _, _, _, hE⟩ := add_edge_sound g c0 c1 t0 t1 w h0 h1
  rw [hE, if_pos (by simp [hnoedge])]
  refine ⟨⟨gB.vertices, gB.edges ++ [⟨c0, c1, w.getD (distance c0 c1), false⟩]⟩,
    rfl, ?_, ?_, ?_⟩
  · show gB.edges ++ _ = _
    rw [hedges]
  · show (gB.edges ++ [(⟨c0, c1, w.getD (distance c0 c1), false⟩ : Edge)]).filter _ = _
    rw [hedges, List.filter_append]
    have h2 : (g.edges.filter (fun ed => decide (ed.between c0 c1))) = [] := hnoedge
    rw [h2]
    simp [Edge.between]
  · intro g2 a b t0' t1' w' hab ha hb hne2
    obtain ⟨gB2, hedges2, _, _, _, _, hE2⟩ := add_edge_sound g2 a b t0' t1' w' ha hb
    have habeq : g2.edgesBetween a b = g2.edgesBetween c0 c1 := by
      rcases hab with ⟨rfl, rfl⟩ | ⟨rfl, rfl⟩
      · rfl
      · exact edgesBetween_comm g2 a b
    rw [hE2, habeq, if_neg (by simp [List.isEmpty_iff, hne2])]
    exact ⟨gB2, rfl, hedges2⟩

/-- Witness for C8: first call on the empty graph with pair
`(0,0)`, `(1,0)` and no explicit weight. -/
theorem add_edge_unique_first_weight_witness :
    ((0, 0) : Pt) ≠ ((1, 0) : Pt) ∧
    (∃ g1, (⟨[], []⟩ : PlanarGraph).add_edge (0, 0) (1, 0) false false none = some g1 ∧
      g1.edges = (⟨[], []⟩ : PlanarGraph).edges ++
        [⟨(0, 0), (1, 0), Option.getD none (distance (0, 0) (1, 0)), false⟩] ∧
      g1.edgesBetween (0, 0) (1, 0) =
        [⟨(0, 0), (1, 0), Option.getD none (distance (0, 0) (1, 0)), false⟩] ∧
      ∀ (g2 : PlanarGraph) (a b : Pt) (t0' t1' : Bool) (w' : Option ℝ),
        ((a = (0, 0) ∧ b = (1, 0)) ∨ (a = (1, 0) ∧ b = (0, 0))) →
        (g2.vertexSeq a).length ≤ 1 → (g2.vertexSeq b).length ≤ 1 →
        g2.edgesBetween (0, 0) (1, 0) ≠ [] →
        ∃ g3, g2.add_edge a b t0' t1' w' = some g3 ∧ g3.edges = g2.edges) :=
  ⟨by intro h; rw [Prod.ext_iff] at h; exact absurd h.1 (by norm_num),
   add_edge_unique_first_weight ⟨[], []⟩ (0, 0) (1, 0) false false none
     (by intro h; rw [Prod.ext_iff] at h; exact absurd h.1 (by norm_num))
     (by simp [PlanarGraph.vertexSeq]) (by simp [PlanarGraph.vertexSeq])
     (by simp [PlanarGraph.edgesBetween])⟩

/-- Claim C10: when an edge already connects the distinct coordinates `c0`
and `c1`, a duplicate `add_edge` call with the default terminal flags
leaves the edge sequence unchanged but overwrites the terminal flag of
both endpoint vertices with `false`. -/
theorem add_edge_duplicate_downgrades (g : PlanarGraph) (c0 c1 : Pt)
    (hne : c0 ≠ c1)
    (h0 : (g.vertexSeq c0).length = 1) (h1 : (g.vertexSeq c1).length = 1)
    (hedge : g.edgesBetween c0 c1 ≠ []) :
    ∃ g', g.add_edge c0 c1 false false none = some g' ∧
      g'.edges = g.edges ∧
      g'.vertices = g.vertices.map
        (fun p => if p.1 = c0 ∨ p.1 = c1 then (p.1, false) else p) := by
  obtain ⟨gB, hedges, hverts, _, _, _, hE⟩ :=
    add_edge_sound g c0 c1 false false none (le_of_eq h0) (le_of_eq h1)
  rw [hE, if_neg (by simp [List.isEmpty_iff, hedge])]
  refine ⟨gB, rfl, hedges, ?_⟩
  rw [hverts h0 h1, List.map_map]
  apply List.map_congr_left
  intro p _
  by_cases hp0 : p.1 = c0 <;> by_cases hp1 : p.1 = c1 <;>
    simp [updFn, Function.comp, hp0, hp1, hne, Ne.symm hne]

/-- Witness for C10 on a two-vertex graph whose endpoints are both
terminal before the duplicate call. -/
theorem add_edge_duplicate_downgrades_witness :
    ((0, 0) : Pt) ≠ ((1, 0) : Pt) ∧
    (∃ g', (⟨[((0, 0), true), ((1, 0), true)],
        [⟨(0, 0), (1, 0), 1, false⟩]⟩ : PlanarGraph).add_edge
          (0, 0) (1, 0) false false none = some g' ∧
      g'.edges = (⟨[((0, 0), true), ((1, 0), true)],
        [⟨(0, 0), (1, 0), 1, false⟩]⟩ : PlanarGraph).edges ∧
      g'.vertices = (⟨[((0, 0), true), ((1, 0), true)],
        [⟨(0, 0), (1, 0), 1, false⟩]⟩ : PlanarGraph).vertices.map
        (fun p => if p.1 = (0, 0) ∨ p.1 = (1, 0) then (p.1, false) else p)) :=
  ⟨by intro h; rw [Prod.ext_iff] at h; exact absurd h.1 (by norm_num),
   add_edge_duplicate_downgrades _ (0, 0) (1, 0)
     (by intro h; rw [Prod.ext_iff] at h; exact absurd h.1 (by norm_num))
     (by norm_num [PlanarGraph.vertexSeq, List.filter, Prod.ext_iff])
     (by norm_num [PlanarGraph.vertexSeq, List.filter, Prod.ext_iff])
     (by norm_num [PlanarGraph.edgesBetween, List.filter, Edge.between])⟩

/-- Claim C4 counterexample: on the empty graph, the public `add_edge`
invoked with the same point for both endpoints creates a self-loop edge —
the edge set is not left unchanged. -/
theorem add_edge_self_loop_counterexample :
    ((⟨[], []⟩ : PlanarGraph).add_edge (0, 0) (0, 0) false false none).map
      (fun g => g.edges.map (fun ed => (ed.src, ed.dst)))
      = some [(((0, 0) : Pt), ((0, 0) : Pt))] := by
  norm_num [PlanarGraph.add_edge, PlanarGraph.add_node, PlanarGraph.vertexSeq,
    PlanarGraph.edgesBetween, updFn, List.filter]

/-- Claim C4 amended: `add_edge(p, p)` is not guarded against self-loops:
when no edge lies between `p` and itself a self-loop edge is appended
(with the supplied weight, else `distance(p, p)`); when such an edge
exists the call leaves the edge sequence unchanged. -/
theorem add_edge_self_loop_spec (g : PlanarGraph) (p : Pt) (t0 t1 : Bool)
    (w : Option ℝ) (h : (g.vertexSeq p).length ≤ 1) :
    ∃ g', g.add_edge p p t0 t1 w = some g' ∧
      (g.edgesBetween p p = [] →
        g'.edges = g.edges ++ [⟨p, p, w.getD (distance p p), false⟩]) ∧
      (g.edgesBetween p p ≠ [] → g'.edges = g.edges) := by
  obtain ⟨gB, hedges, _, _, _, _, hE⟩ := add_edge_sound g p p t0 t1 w h h
  rw [hE]
  by_cases hb : g.edgesBetween p p = []
  · rw [if_pos (by simp [hb])]
    refine ⟨_, rfl, fun _ => ?_, fun hn => absurd hb hn⟩
    show gB.edges ++ _ = _
    rw [hedges]
  · rw [if_neg (by simp [List.isEmpty_iff, hb])]
    exact ⟨gB, rfl, fun he => absurd he hb, fun _ => hedges⟩

/-- Witness for C4 (amended) at the empty graph and point `(2, 3)`. -/
theorem add_edge_self_loop_spec_witness :
    (((⟨[], []⟩ : PlanarGraph).vertexSeq (2, 3)).length ≤ 1) ∧
    (∃ g', (⟨[], []⟩ : PlanarGraph).add_edge (2, 3) (2, 3) false false none = some g' ∧
      ((⟨[], []⟩ : PlanarGraph).edgesBetween (2, 3) (2, 3) = [] →
        g'.edges = (⟨[], []⟩ : PlanarGraph).edges ++
          [⟨(2, 3), (2, 3), Option.getD none (distance (2, 3) (2, 3)), false⟩]) ∧
      ((⟨[], []⟩ : PlanarGraph).edgesBetween (2, 3) (2, 3) ≠ [] →
        g'.edges = (⟨[], []⟩ : PlanarGraph).edges)) :=
  ⟨by simp [PlanarGraph.vertexSeq],
   add_edge_self_loop_spec ⟨[], []⟩ (2, 3) false false none
     (by simp [PlanarGraph.vertexSeq])⟩

lemma filter_not_between_of_none (g : PlanarGraph) (a b : Pt)
    (h : g.edgesBetween a b = []) :
    g.edges.filter (fun ed => ¬ ed.between a b) = g.edges := by
  apply List.filter_eq_self.mpr
  intro ed hed
  have h2 := List.filter_eq_nil_iff.mp h ed hed
  simpa using h2

lemma split_edge_no_edge (g : PlanarGraph) (a b c : Pt) (t : Bool)
    (hca : c ≠ a) (hcb : c ≠ b) (hab : a ≠ b)
    (ha : (g.vertexSeq a).length = 1) (hb : (g.vertexSeq b).length = 1)
    (hc : (g.vertexSeq c).length ≤ 1)
    (hnab : g.edgesBetween a b = [])
    (hnac : g.edgesBetween a c = [])
    (hncb : g.edgesBetween c b = []) :
    ∃ g', g.split_edge_by_node (a, b) c t = some g' ∧
      g'.edges = g.edges ++
        [⟨a, c, distance a c, false⟩, ⟨c, b, distance c b, false⟩] := by
  unfold PlanarGraph.split_edge_by_node
  rw [if_neg hca, if_neg hcb, if_pos ha, if_pos hb]
  have hg' : (⟨g.vertices, g.edges.filter (fun ed => ¬ ed.between a b)⟩ :
      PlanarGraph) = g := by
    rw [filter_not_between_of_none g a b hnab]
  dsimp only
  rw [hg']
  obtain ⟨gC, hCe, _, hCa, hCc, hCother, hE1⟩ :=
    add_edge_sound g a c false t none (le_of_eq ha) hc
  rw [hE1, if_pos (by simp [hnac])]
  simp only [Option.bind_eq_bind, Option.some_bind]
  have hCb : ((⟨gC.vertices, gC.edges ++
      [⟨a, c, Option.getD none (distance a c), false⟩]⟩ :
      PlanarGraph).vertexSeq b).length ≤ 1 := by
    show ((gC.vertexSeq b).length ≤ 1)
    rw [hCother b (Ne.symm hab) (Ne.symm hcb), hb]
  have hCc2 : ((⟨gC.vertices, gC.edges ++
      [⟨a, c, Option.getD none (distance a c), false⟩]⟩ :
      PlanarGraph).vertexSeq c).length ≤ 1 := by
    show ((gC.vertexSeq c).length ≤ 1)
    rw [hCc]
  obtain ⟨gE, hEe, _, _, _, _, hE2⟩ :=
    add_edge_sound (⟨gC.vertices, gC.edges ++
      [⟨a, c, Option.getD none (distance a c), false⟩]⟩ : PlanarGraph)
      c b t false none hCc2 hCb
  have hbet2 : (⟨gC.vertices, gC.edges ++
      [⟨a, c, distance a c, false⟩]⟩ :
      PlanarGraph).edgesBetween c b = [] := by
    show (gC.edges ++ _).filter _ = []
    rw [List.filter_append, hCe]
    have hg0 : g.edges.filter (fun ed => decide (ed.between c b)) = [] := hncb
    rw [hg0]
    simp [Edge.between, Ne.symm hca, hab]
  rw [hE2, if_pos (by simp [hbet2])]
  refine ⟨_, rfl, ?_⟩
  show gE.edges ++ _ = _
  rw [hEe]
  show (gC.edges ++ _) ++ _ = _
  rw [hCe, List.append_assoc]
  rfl

/-- Claim C5 counterexample: on a graph holding the two vertices `(0,0)`
and `(1,0)` but no edge at all, `split_edge_by_node` with the third point
`(5,5)` does not fail — it returns a mutated graph with two new edges. -/
theorem split_edge_missing_edge_counterexample :
    (((⟨[((0, 0), false), ((1, 0), false)], []⟩ : PlanarGraph).split_edge_by_node
        ((0, 0), (1, 0)) (5, 5) false).map (fun g => g.edges.length)) = some 2 := by
  obtain ⟨g', hs, he⟩ :=
    split_edge_no_edge ⟨[((0, 0), false), ((1, 0), false)], []⟩
      (0, 0) (1, 0) (5, 5) false
      (by intro h; rw [Prod.ext_iff] at h; exact absurd h.1 (by norm_num))
      (by intro h; rw [Prod.ext_iff] at h; exact absurd h.1 (by norm_num))
      (by intro h; rw [Prod.ext_iff] at h; exact absurd h.1 (by norm_num))
      (by norm_num [PlanarGraph.vertexSeq, List.filter, Prod.ext_iff])
      (by norm_num [PlanarGraph.vertexSeq, List.filter, Prod.ext_iff])
      (by norm_num [PlanarGraph.vertexSeq, List.filter, Prod.ext_iff])
      (by norm_num [PlanarGraph.edgesBetween, List.filter])
      (by norm_num [PlanarGraph.edgesBetween, List.filter])
      (by norm_num [PlanarGraph.edgesBetween, List.filter])
  rw [hs]
  simp [he]

lemma add_edge_cases (g : PlanarGraph) (c0 c1 : Pt) (t0 t1 : Bool)
    (w : Option ℝ)
    (h0 : (g.vertexSeq c0).length ≤ 1) (h1 : (g.vertexSeq c1).length ≤ 1) :
    ∃ g', g.add_edge c0 c1 t0 t1 w = some g' ∧
      (g'.vertexSeq c0).length = 1 ∧ (g'.vertexSeq c1).length = 1 ∧
      (∀ c', c' ≠ c0 → c' ≠ c1 → g'.vertexSeq c' = g.vertexSeq c') ∧
      (g.edgesBetween c0 c1 = [] →
        g'.edges = g.edges ++ [⟨c0, c1, w.getD (distance c0 c1), false⟩]) ∧
      (g.edgesBetween c0 c1 ≠ [] → g'.edges = g.edges) := by
  obtain ⟨gB, hedges, _, hB0, hB1, hBoth, hE⟩ :=
    add_edge_sound g c0 c1 t0 t1 w h0 h1
  by_cases hbet : g.edgesBetween c0 c1 = []
  · rw [hE, if_pos (by simp [hbet])]
    refine ⟨_, rfl, hB0, hB1, hBoth, fun _ => ?_, fun hn => absurd hbet hn⟩
    show gB.edges ++ _ = _
    rw [hedges]
  · rw [hE, if_neg (by simp [List.isEmpty_iff, hbet])]
    exact ⟨gB, rfl, hB0, hB1, hBoth, fun he => absurd he hbet, fun _ => hedges⟩

lemma filter_of_filter_not {l : List Edge} {p q : Edge → Prop}
    (h : ∀ ed, p ed → ¬ q ed) :
    (l.filter (fun ed => ¬ q ed)).filter (fun ed => p ed)
      = l.filter (fun ed => p ed) := by
  induction l with
  | nil => rfl
  | cons x xs ih =>
    by_cases hq : q x
    · have hp : ¬ p x := fun hp => h x hp hq
      have hinner : (x :: xs).filter (fun ed => ¬ q ed)
          = xs.filter (fun ed => ¬ q ed) := by
        rw [List.filter_cons, if_neg (by simp [hq])]
      have houter : (x :: xs).filter (fun ed => p ed)
          = xs.filter (fun ed => p ed) := by
        rw [List.filter_cons, if_neg (by simp [hp])]
      rw [hinner, houter]
      exact ih
    · have hinner : (x :: xs).filter (fun ed => ¬ q ed)
          = x :: xs.filter (fun ed => ¬ q ed) := by
        rw [List.filter_cons, if_pos (by simp [hq])]
      rw [hinner]
      by_cases hp : p x
      · have h1 : (x :: xs.filter (fun ed => ¬ q ed)).filter (fun ed => p ed)
            = x :: (xs.filter (fun ed => ¬ q ed)).filter (fun ed => p ed) := by
          rw [List.filter_cons, if_pos (by simp [hp])]
        have h2 : (x :: xs).filter (fun ed => p ed)
            = x :: xs.filter (fun ed => p ed) := by
          rw [List.filter_cons, if_pos (by simp [hp])]
        rw [h1, h2, ih]
      · have h1 : (x :: xs.filter (fun ed => ¬ q ed)).filter (fun ed => p ed)
            = (xs.filter (fun ed => ¬ q ed)).filter (fun ed => p ed) := by
          rw [List.filter_cons, if_neg (by simp [hp])]
        have h2 : (x :: xs).filter (fun ed => p ed)
            = xs.filter (fun ed => p ed) := by
          rw [List.filter_cons, if_neg (by simp [hp])]
        rw [h1, h2, ih]

lemma edgesBetween_eq_filter (g : PlanarGraph) (L : List Edge) (x y : Pt)
    (h : g.edges = L) :
    g.edgesBetween x y = L.filter (fun ed => ed.between x y) := by
  unfold PlanarGraph.edgesBetween
  rw [h]

lemma append_left_ne_nil {α : Type} {l1 : List α} (l2 : List α)
    (h : l1 ≠ []) : l1 ++ l2 ≠ [] := by
  cases l1 with
  | nil => exact absurd rfl h
  | cons x xs => simp

/-- Claim C5 amended: `split_edge_by_node`, invoked with a third point
distinct from both (distinct) endpoint coordinates, fails with the
structural assertion exactly when an endpoint coordinate does not name
exactly one vertex.  When both endpoints name unique vertices it does
**not** signal a not-found error even when no edge — or more than one
edge — lies between them: every edge between the two endpoints is
deleted and the two replacement `add_edge` calls are issued (each a
no-op when its pair is already connected), so afterwards no edge lies
between the two endpoints, each endpoint is connected to the third
point, and when the third point was not previously connected to either
endpoint the edge list is exactly the old list minus the endpoint-pair
edges plus the two replacement edges. -/
theorem split_edge_by_node_spec (g : PlanarGraph) (a b c : Pt) (t : Bool)
    (hca : c ≠ a) (hcb : c ≠ b) (hab : a ≠ b)
    (hc : (g.vertexSeq c).length ≤ 1) :
    (((g.vertexSeq a).length = 1 ∧ (g.vertexSeq b).length = 1) →
      ∃ g', g.split_edge_by_node (a, b) c t = some g' ∧
        g'.edgesBetween a b = [] ∧
        g'.edgesBetween a c ≠ [] ∧
        g'.edgesBetween c b ≠ [] ∧
        (g.edgesBetween a c = [] → g.edgesBetween c b = [] →
          g'.edges = g.edges.filter (fun ed => ¬ ed.between a b) ++
            [⟨a, c, distance a c, false⟩, ⟨c, b, distance c b, false⟩])) ∧
    (¬ ((g.vertexSeq a).length = 1 ∧ (g.vertexSeq b).length = 1) →
      g.split_edge_by_node (a, b) c t = none) := by
  have hacnb : ∀ ed : Edge, ed.between a c → ¬ ed.between a b := by
    intro ed h1 h2
    rcases h1 with ⟨hs, hd⟩ | ⟨hs, hd⟩ <;> rcases h2 with ⟨hs2, hd2⟩ | ⟨hs2, hd2⟩
    · exact hcb (hd.symm.trans hd2)
    · exact hab (hs.symm.trans hs2)
    · exact hca (hs.symm.trans hs2)
    · exact hcb (hs.symm.trans hs2)
  have hcbnb : ∀ ed : Edge, ed.between c b → ¬ ed.between a b := by
    intro ed h1 h2
    rcases h1 with ⟨hs, hd⟩ | ⟨hs, hd⟩ <;> rcases h2 with ⟨hs2, hd2⟩ | ⟨hs2, hd2⟩
    · exact hca (hs.symm.trans hs2)
    · exact hab (hd2.symm.trans hd)
    · exact hab (hs2.symm.trans hs)
    · exact hca (hd.symm.trans hd2)
  have hE1nab : ¬ (⟨a, c, distance a c, false⟩ : Edge).between a b :=
    hacnb _ (Or.inl ⟨rfl, rfl⟩)
  have hE2nab : ¬ (⟨c, b, distance c b, false⟩ : Edge).between a b :=
    hcbnb _ (Or.inl ⟨rfl, rfl⟩)
  have hE1ncb : ¬ (⟨a, c, distance a c, false⟩ : Edge).between c b := by
    rintro (⟨hs, hd⟩ | ⟨hs, hd⟩)
    · exact hca hs.symm
    · exact hab hs
  have hE2nac : ¬ (⟨c, b, distance c b, false⟩ : Edge).between a c := by
    rintro (⟨hs, hd⟩ | ⟨hs, hd⟩)
    · exact hca hs
    · exact hab hd.symm
  have hE1ac : (⟨a, c, distance a c, false⟩ : Edge).between a c :=
    Or.inl ⟨rfl, rfl⟩
  have hE2cb : (⟨c, b, distance c b, false⟩ : Edge).between c b :=
    Or.inl ⟨rfl, rfl⟩
  constructor
  · rintro ⟨ha, hb⟩
    unfold PlanarGraph.split_edge_by_node
    rw [if_neg hca, if_neg hcb, if_pos ha, if_pos hb]
    dsimp only
    have hE0ab : (g.edges.filter (fun ed => ¬ ed.between a b)).filter
        (fun ed => ed.between a b) = [] := by
      apply List.filter_eq_nil_iff.mpr
      intro ed hed
      have h2 := (List.mem_filter.mp hed).2
      simp only [decide_eq_true_eq] at h2 ⊢
      exact h2
    have hDac : ((⟨g.vertices, g.edges.filter (fun ed => ¬ ed.between a b)⟩ :
        PlanarGraph)).edgesBetween a c = g.edgesBetween a c := by
      show (g.edges.filter (fun ed => ¬ ed.between a b)).filter _ = _
      exact filter_of_filter_not hacnb
    have hDcb0 : (g.edges.filter (fun ed => ¬ ed.between a b)).filter
        (fun ed => ed.between c b) = g.edgesBetween c b :=
      filter_of_filter_not hcbnb
    obtain ⟨g1, hs1, hv1a, hv1c, hv1oth, h1app, h1noop⟩ :=
      add_edge_cases (⟨g.vertices, g.edges.filter (fun ed => ¬ ed.between a b)⟩ :
        PlanarGraph) a c false t none (le_of_eq ha) hc
    have hg1b : (g1.vertexSeq b).length ≤ 1 := by
      rw [hv1oth b (Ne.symm hab) (Ne.symm hcb)]
      exact le_of_eq hb
    have hg1c : (g1.vertexSeq c).length ≤ 1 := le_of_eq hv1c
    rw [hs1]
    simp only [Option.bind_eq_bind, Option.some_bind]
    obtain ⟨g2, hs2, hv2c, hv2b, hv2oth, h2app, h2noop⟩ :=
      add_edge_cases g1 c b t false none hg1c hg1b
    rw [hs2]
    by_cases hacE : g.edgesBetween a c = []
    · have hg1e : g1.edges = g.edges.filter (fun ed => ¬ ed.between a b) ++
          [⟨a, c, distance a c, false⟩] := by
        have := h1app (hDac.trans hacE)
        simpa using this
      have hg1cb : g1.edgesBetween c b = g.edgesBetween c b := by
        rw [edgesBetween_eq_filter g1 _ c b hg1e, List.filter_append, hDcb0]
        simp [hE1ncb]
      by_cases hcbE : g.edgesBetween c b = []
      · have hg2e : g2.edges = (g.edges.filter (fun ed => ¬ ed.between a b) ++
            [⟨a, c, distance a c, false⟩]) ++ [⟨c, b, distance c b, false⟩] := by
          have := h2app (hg1cb.trans hcbE)
          rw [hg1e] at this
          simpa using this
        refine ⟨g2, rfl, ?_, ?_, ?_, ?_⟩
        · rw [edgesBetween_eq_filter g2 _ a b hg2e, List.filter_append,
            List.filter_append, hE0ab]
          simp [hE1nab, hE2nab]
        · rw [edgesBetween_eq_filter g2 _ a c hg2e]
          apply List.ne_nil_of_mem
          show (⟨a, c, distance a c, false⟩ : Edge) ∈ _
          rw [List.mem_filter]
          exact ⟨by simp, by simpa using hE1ac⟩
        · rw [edgesBetween_eq_filter g2 _ c b hg2e]
          apply List.ne_nil_of_mem
          show (⟨c, b, distance c b, false⟩ : Edge) ∈ _
          rw [List.mem_filter]
          exact ⟨by simp, by simpa using hE2cb⟩
        · intro _ _
          rw [hg2e, List.append_assoc]
          rfl
      · have hg2e : g2.edges = g.edges.filter (fun ed => ¬ ed.between a b) ++
            [⟨a, c, distance a c, false⟩] := by
          rw [h2noop (fun he => hcbE (hg1cb.symm.trans he)), hg1e]
        refine ⟨g2, rfl, ?_, ?_, ?_, ?_⟩
        · rw [edgesBetween_eq_filter g2 _ a b hg2e, List.filter_append, hE0ab]
          simp [hE1nab]
        · rw [edgesBetween_eq_filter g2 _ a c hg2e]
          apply List.ne_nil_of_mem
          show (⟨a, c, distance a c, false⟩ : Edge) ∈ _
          rw [List.mem_filter]
          exact ⟨by simp, by simpa using hE1ac⟩
        · rw [edgesBetween_eq_filter g2 _ c b hg2e, List.filter_append, hDcb0]
          apply append_left_ne_nil
          exact hcbE
        · intro _ hcb0
          exact absurd hcb0 hcbE
    · have hg1e : g1.edges = g.edges.filter (fun ed => ¬ ed.between a b) := by
        have := h1noop (fun he => hacE (hDac.symm.trans he))
        simpa using this
      have hg1cb : g1.edgesBetween c b = g.edgesBetween c b := by
        rw [edgesBetween_eq_filter g1 _ c b hg1e, hDcb0]
      have hg1ac : g1.edgesBetween a c = g.edgesBetween a c := by
        rw [edgesBetween_eq_filter g1 _ a c hg1e]
        exact filter_of_filter_not hacnb
      by_cases hcbE : g.edgesBetween c b = []
      · have hg2e : g2.edges = g.edges.filter (fun ed => ¬ ed.between a b) ++
            [⟨c, b, distance c b, false⟩] := by
          have := h2app (hg1cb.trans hcbE)
          rw [hg1e] at this
          simpa using this
        refine ⟨g2, rfl, ?_, ?_, ?_, ?_⟩
        · rw [edgesBetween_eq_filter g2 _ a b hg2e, List.filter_append, hE0ab]
          simp [hE2nab]
        · rw [edgesBetween_eq_filter g2 _ a c hg2e, List.filter_append,
            filter_of_filter_not hacnb]
          apply append_left_ne_nil
          exact hacE
        · rw [edgesBetween_eq_filter g2 _ c b hg2e]
          apply List.ne_nil_of_mem
          show (⟨c, b, distance c b, false⟩ : Edge) ∈ _
          rw [List.mem_filter]
          exact ⟨by simp, by simpa using hE2cb⟩
        · intro hac0 _
          exact absurd hac0 hacE
      · have hg2e : g2.edges = g.edges.filter (fun ed => ¬ ed.between a b) := by
          rw [h2noop (fun he => hcbE (hg1cb.symm.trans he)), hg1e]
        refine ⟨g2, rfl, ?_, ?_, ?_, ?_⟩
        · rw [edgesBetween_eq_filter g2 _ a b hg2e]
          exact hE0ab
        · rw [edgesBetween_eq_filter g2 _ a c hg2e, filter_of_filter_not hacnb]
          exact hacE
        · rw [edgesBetween_eq_filter g2 _ c b hg2e, hDcb0]
          exact hcbE
        · intro hac0 _
          exact absurd hac0 hacE
  · intro hfail
    unfold PlanarGraph.split_edge_by_node
    rw [if_neg hca, if_neg hcb]
    by_cases ha : (g.vertexSeq a).length = 1
    · rw [if_pos ha, if_neg (fun hb => hfail ⟨ha, hb⟩)]
    · rw [if_neg ha]

/-- The concrete C5 witness graph: two vertices, no edges. -/
def c5WitnessGraph : PlanarGraph := ⟨[((0, 0), false), ((1, 0), false)], []⟩

/-- Witness for C5 (amended): endpoints `(0,0)`, `(1,0)` exist uniquely as
vertices and the third point `(0,2)` is fresh, so the success branch
applies: the call returns a mutated graph (no not-found error), with both
replacement edges present afterwards. -/
theorem split_edge_by_node_spec_witness :
    ∃ g', c5WitnessGraph.split_edge_by_node ((0, 0), (1, 0)) (0, 2) false
        = some g' ∧
      g'.edgesBetween (0, 0) (1, 0) = [] ∧
      g'.edgesBetween (0, 0) (0, 2) ≠ [] ∧
      g'.edgesBetween (0, 2) (1, 0) ≠ [] ∧
      (c5WitnessGraph.edgesBetween (0, 0) (0, 2) = [] →
       c5WitnessGraph.edgesBetween (0, 2) (1, 0) = [] →
        g'.edges = c5WitnessGraph.edges.filter
            (fun ed => ¬ ed.between (0, 0) (1, 0)) ++
          [⟨(0, 0), (0, 2), distance (0, 0) (0, 2), false⟩,
           ⟨(0, 2), (1, 0), distance (0, 2) (1, 0), false⟩]) :=
  (split_edge_by_node_spec c5WitnessGraph (0, 0) (1, 0) (0, 2) false
     (by intro h; rw [Prod.ext_iff] at h; exact absurd h.2 (by norm_num))
     (by intro h; rw [Prod.ext_iff] at h; exact absurd h.2 (by norm_num))
     (by intro h; rw [Prod.ext_iff] at h; exact absurd h.1 (by norm_num))
     (by norm_num [c5WitnessGraph, PlanarGraph.vertexSeq, List.filter,
       Prod.ext_iff])).1
    ⟨by norm_num [c5WitnessGraph, PlanarGraph.vertexSeq, List.filter,
       Prod.ext_iff],
     by norm_num [c5WitnessGraph, PlanarGraph.vertexSeq, List.filter,
       Prod.ext_iff]⟩

/-- Claim C6 counterexample: for segment `((1,0),(0,0))` and point
`(3/10, 1/2500)` the accepted candidate `(3/10, 1/1250)` has point-to-line
distance `1/1250 = 8e-4`, which is **not** below the claimed tolerance
`1e-4` — the acceptance threshold in the code is the literal `10e-4`
(that is `1e-3`), not `1e-4`. -/
theorem vector_projection_tolerance_counterexample :
    vector_projection ((1, 0), (0, 0)) (3 / 10, 1 / 2500)
      = some (3 / 10, 1 / 1250) ∧
    ¬ min_distance_from_point_to_line (3 / 10, 1 / 1250) ((1, 0), (0, 0))
      < 1 / 10000 := by
  constructor
  · unfold vector_projection proj_candidates min_distance_from_point_to_line
      lineExpr segDen
    norm_num [Real.sqrt_one, abs_of_nonneg, Prod.ext_iff]
  · unfold min_distance_from_point_to_line lineExpr segDen
    norm_num [Real.sqrt_one, abs_of_nonneg]

/-- Claim C6 amended: the projection tolerance is `1e-3` (the source
literal `10e-4`), not `1e-4`: any candidate `vector_projection` returns
has point-to-line distance below `1/1000`, and when both candidates have
distance at least `1/1000` the operation fails (the assertion). -/
theorem vector_projection_tolerance (e : Pt × Pt) (c : Pt) :
    (∀ q, vector_projection e c = some q →
      min_distance_from_point_to_line q e < 1 / 1000) ∧
    (¬ min_distance_from_point_to_line (proj_candidates e c).1 e < 1 / 1000 →
      ¬ min_distance_from_point_to_line (proj_candidates e c).2 e < 1 / 1000 →
      vector_projection e c = none) := by
  constructor
  · intro q hq
    unfold vector_projection at hq
    by_cases h1 : min_distance_from_point_to_line (proj_candidates e c).1 e
        < 1 / 1000
    · rw [if_pos h1] at hq
      rw [← Option.some.inj hq]
      exact h1
    · rw [if_neg h1] at hq
      by_cases h2 : min_distance_from_point_to_line (proj_candidates e c).2 e
          < 1 / 1000
      · rw [if_pos h2] at hq
        rw [← Option.some.inj hq]
        exact h2
      · rw [if_neg h2] at hq
        cases hq
  · intro h1 h2
    unfold vector_projection
    rw [if_neg h1, if_neg h2]

/-- Witness for C6 (amended): at segment `((1,0),(0,0))` and point
`(3/10, 2)`, the returned candidate is `(3/10, 0)`, whose point-to-line
distance is below `1/1000`. -/
theorem vector_projection_tolerance_witness :
    min_distance_from_point_to_line (3 / 10, 0) ((1, 0), (0, 0)) < 1 / 1000 :=
  (vector_projection_tolerance ((1, 0), (0, 0)) (3 / 10, 2)).1 (3 / 10, 0)
    (by
      unfold vector_projection proj_candidates min_distance_from_point_to_line
        lineExpr segDen
      norm_num [Real.sqrt_one, abs_of_nonneg, Prod.ext_iff])

/-! ## The mathematical orthogonal projection (for stating C9) -/

/-- The orthogonal projection of `c` onto the infinite line through the
segment `e` — the foot of the perpendicular, by the standard parametric
formula.  This is the spec-side notion the code's `vector_projection` is
compared against. -/
def foot (e : Pt × Pt) (c : Pt) : Pt :=
  let v1 := e.2.1 - e.1.1
  let v2 := e.2.2 - e.1.2
  let tt := ((c.1 - e.1.1) * v1 + (c.2 - e.1.2) * v2) / (v1 ^ 2 + v2 ^ 2)
  (e.1.1 + tt * v1, e.1.2 + tt * v2)

lemma seg_sq_pos (e : Pt × Pt) (h : e.1 ≠ e.2) :
    0 < (e.2.1 - e.1.1) ^ 2 + (e.2.2 - e.1.2) ^ 2 := by
  by_contra hle
  push_neg at hle
  have hx : e.2.1 - e.1.1 = 0 := by
    nlinarith [sq_nonneg (e.2.1 - e.1.1), sq_nonneg (e.2.2 - e.1.2)]
  have hy : e.2.2 - e.1.2 = 0 := by
    nlinarith [sq_nonneg (e.2.1 - e.1.1), sq_nonneg (e.2.2 - e.1.2)]
  exact h (Prod.ext (by linarith) (by linarith))

lemma segDen_sq (e : Pt × Pt) :
    segDen e ^ 2 = (e.2.2 - e.1.2) ^ 2 + (e.2.1 - e.1.1) ^ 2 :=
  Real.sq_sqrt (by positivity)

lemma segDen_pos (e : Pt × Pt) (h : e.1 ≠ e.2) : 0 < segDen e := by
  apply Real.sqrt_pos.mpr
  have h2 := seg_sq_pos e h
  linarith

lemma nrm_eq_segDen (e : Pt × Pt) :
    Real.sqrt ((e.1.1 - e.2.1) ^ 2 + (e.1.2 - e.2.2) ^ 2) = segDen e := by
  unfold segDen
  congr 1
  ring

lemma proj_candidates_fst (e : Pt × Pt) (c : Pt) :
    (proj_candidates e c).1 =
      (c.1 + (min_distance_from_point_to_line c e) * ((e.2.2 - e.1.2) / segDen e),
       c.2 - (min_distance_from_point_to_line c e) * ((e.2.1 - e.1.1) / segDen e)) := by
  unfold proj_candidates
  rw [Prod.ext_iff]
  constructor <;>
  · dsimp only
    rw [nrm_eq_segDen]
    ring

lemma proj_candidates_snd (e : Pt × Pt) (c : Pt) :
    (proj_candidates e c).2 =
      (c.1 + (-(min_distance_from_point_to_line c e)) * ((e.2.2 - e.1.2) / segDen e),
       c.2 - (-(min_distance_from_point_to_line c e)) * ((e.2.1 - e.1.1) / segDen e)) := by
  unfold proj_candidates
  rw [Prod.ext_iff]
  constructor <;>
  · dsimp only
    rw [nrm_eq_segDen]
    ring

lemma lineExpr_shift (e : Pt × Pt) (c : Pt) (t : ℝ) (hL : segDen e ≠ 0) :
    lineExpr e (c.1 + t * ((e.2.2 - e.1.2) / segDen e),
                c.2 - t * ((e.2.1 - e.1.1) / segDen e))
      = lineExpr e c + t * segDen e := by
  have hs := segDen_sq e
  unfold lineExpr
  field_simp
  linear_combination (-t) * hs

lemma candidate_eq_foot (e : Pt × Pt) (c : Pt) (h : e.1 ≠ e.2) (s : ℝ)
    (hzero : lineExpr e c + s * segDen e = 0) :
    ((c.1 + s * ((e.2.2 - e.1.2) / segDen e),
      c.2 - s * ((e.2.1 - e.1.1) / segDen e)) : Pt) = foot e c := by
  have hLpos := segDen_pos e h
  have hL : segDen e ≠ 0 := ne_of_gt hLpos
  have hS := seg_sq_pos e h
  have hSne : (e.2.1 - e.1.1) ^ 2 + (e.2.2 - e.1.2) ^ 2 ≠ 0 := ne_of_gt hS
  have hLL : segDen e * segDen e
      = (e.2.1 - e.1.1) ^ 2 + (e.2.2 - e.1.2) ^ 2 := by
    have hs2 := segDen_sq e
    rw [← sq, hs2]
    ring
  have hsval : s = -(lineExpr e c) / segDen e := by
    field_simp
    linear_combination hzero
  rw [hsval]
  unfold foot
  rw [Prod.ext_iff]
  constructor
  · dsimp only
    rw [div_mul_div_comm, hLL]
    unfold lineExpr
    field_simp
    ring
  · dsimp only
    rw [div_mul_div_comm, hLL]
    unfold lineExpr
    field_simp
    ring

lemma lineExpr_candidate_fst (e : Pt × Pt) (c : Pt) (hL : segDen e ≠ 0) :
    lineExpr e (proj_candidates e c).1 = lineExpr e c + |lineExpr e c| := by
  rw [proj_candidates_fst, lineExpr_shift e c _ hL]
  unfold min_distance_from_point_to_line
  rw [div_mul_cancel₀ _ hL]

lemma lineExpr_candidate_snd (e : Pt × Pt) (c : Pt) (hL : segDen e ≠ 0) :
    lineExpr e (proj_candidates e c).2 = lineExpr e c - |lineExpr e c| := by
  rw [proj_candidates_snd, lineExpr_shift e c _ hL]
  unfold min_distance_from_point_to_line
  rw [neg_mul, div_mul_cancel₀ _ hL]
  ring

lemma vector_projection_eq_foot (e : Pt × Pt) (c : Pt) (h : e.1 ≠ e.2)
    (hd : min_distance_from_point_to_line c e = 0 ∨
          1 / 2000 ≤ min_distance_from_point_to_line c e) :
    vector_projection e c = some (foot e c) := by
  have hLpos := segDen_pos e h
  have hL : segDen e ≠ 0 := ne_of_gt hLpos
  have hm1 : min_distance_from_point_to_line (proj_candidates e c).1 e
      = abs (lineExpr e c + abs (lineExpr e c)) / segDen e := by
    unfold min_distance_from_point_to_line
    rw [lineExpr_candidate_fst e c hL]
  have hm2 : min_distance_from_point_to_line (proj_candidates e c).2 e
      = abs (lineExpr e c - abs (lineExpr e c)) / segDen e := by
    unfold min_distance_from_point_to_line
    rw [lineExpr_candidate_snd e c hL]
  rcases le_or_lt (lineExpr e c) 0 with hXn | hXp
  · have habs : |lineExpr e c| = -(lineExpr e c) := abs_of_nonpos hXn
    have hc1 : min_distance_from_point_to_line (proj_candidates e c).1 e
        < 1 / 1000 := by
      rw [hm1, habs]
      simp only [add_neg_cancel, abs_zero, zero_div]
      norm_num
    unfold vector_projection
    rw [if_pos hc1]
    congr 1
    rw [proj_candidates_fst]
    apply candidate_eq_foot e c h
    unfold min_distance_from_point_to_line
    rw [div_mul_cancel₀ _ hL, habs]
    ring
  · have habs : |lineExpr e c| = lineExpr e c := abs_of_pos hXp
    have hdpos : 0 < min_distance_from_point_to_line c e := by
      unfold min_distance_from_point_to_line
      exact div_pos (abs_pos.mpr (ne_of_gt hXp)) hLpos
    have hdge : 1 / 2000 ≤ min_distance_from_point_to_line c e := by
      rcases hd with h0 | hge
      · exact absurd h0 (ne_of_gt hdpos)
      · exact hge
    have hmind : min_distance_from_point_to_line c e
        = lineExpr e c / segDen e := by
      unfold min_distance_from_point_to_line
      rw [habs]
    have hc1 : ¬ min_distance_from_point_to_line (proj_candidates e c).1 e
        < 1 / 1000 := by
      rw [hm1, habs]
      push_neg
      have habs2 : abs (lineExpr e c + lineExpr e c) = 2 * lineExpr e c := by
        rw [abs_of_pos (by linarith)]
        ring
      rw [habs2]
      calc (1 : ℝ) / 1000 = 2 * (1 / 2000) := by norm_num
        _ ≤ 2 * (lineExpr e c / segDen e) := by
            apply mul_le_mul_of_nonneg_left _ (by norm_num)
            rw [← hmind]
            exact hdge
        _ = 2 * lineExpr e c / segDen e := by ring
    have hc2 : min_distance_from_point_to_line (proj_candidates e c).2 e
        < 1 / 1000 := by
      rw [hm2, habs]
      simp only [sub_self, abs_zero, zero_div]
      norm_num
    unfold vector_projection
    rw [if_neg hc1, if_pos hc2]
    congr 1
    rw [proj_candidates_snd]
    apply candidate_eq_foot e c h
    unfold min_distance_from_point_to_line
    rw [neg_mul, div_mul_cancel₀ _ hL, habs]
    ring

/-- Claim C9 counterexample: for the segment `((1,0),(0,0))` and the point
`(3/10, 1/5000)` — at distance `2e-4` from the line — the orthogonal
projection is `(3/10, 0)` and `node_on_edge` holds for it, yet
`closest_point_to_node` returns `(3/10, 1/2500)`, which is **not** the
orthogonal projection: `vector_projection` tries `proj1` first and the
`1e-3` tolerance also accepts the reflected candidate. -/
theorem closest_point_counterexample :
    closest_point_to_node ((1, 0), (0, 0)) (3 / 10, 1 / 5000)
        = some (3 / 10, 1 / 2500) ∧
    foot ((1, 0), (0, 0)) (3 / 10, 1 / 5000) = (3 / 10, 0) ∧
    node_on_edge ((1, 0), (0, 0)) (3 / 10, 0) = true ∧
    ((3 / 10, 1 / 2500) : Pt) ≠ ((3 / 10, 0) : Pt) := by
  have hnoe : node_on_edge ((1, 0), (0, 0)) ((3 : ℝ) / 10, (1 : ℝ) / 2500)
      = true := by
    unfold node_on_edge distance
    rw [if_neg]
    apply not_lt.mpr
    apply Real.sqrt_le_sqrt
    norm_num
  refine ⟨?_, ?_, ?_, ?_⟩
  · unfold closest_point_to_node
    have hvp : vector_projection ((1, 0), (0, 0)) (3 / 10, 1 / 5000)
        = some (3 / 10, 1 / 2500) := by
      unfold vector_projection proj_candidates min_distance_from_point_to_line
        lineExpr segDen
      norm_num [Real.sqrt_one, abs_of_nonneg, Prod.ext_iff]
    rw [hvp, Option.map_some', hnoe]
    simp
  · unfold foot
    norm_num [Prod.ext_iff]
  · unfold node_on_edge distance
    rw [if_neg]
    apply not_lt.mpr
    apply Real.sqrt_le_sqrt
    norm_num
  · intro hh
    rw [Prod.ext_iff] at hh
    exact absurd hh.2 (by norm_num)

/-- Claim C9 amended: for every non-degenerate segment and every point
whose distance to the segment's line is either zero or at least `5e-4`
(so that the `1e-3` acceptance test in `vector_projection` can only pass
on the true projection), `closest_point_to_node` returns the orthogonal
projection of the point onto the segment's line whenever `node_on_edge`
holds for it, and otherwise the nearer endpoint, the first endpoint when
the two distances tie; for points closer than `5e-4` to the line the
returned point may instead be the reflected candidate (see the
counterexample). -/
theorem closest_point_spec (e : Pt × Pt) (c : Pt) (hdeg : e.1 ≠ e.2)
    (hd : min_distance_from_point_to_line c e = 0 ∨
          1 / 2000 ≤ min_distance_from_point_to_line c e) :
    closest_point_to_node e c =
      some (if node_on_edge e (foot e c) then foot e c
            else if distance e.1 c ≤ distance e.2 c then e.1 else e.2) := by
  unfold closest_point_to_node
  rw [vector_projection_eq_foot e c hdeg hd]
  rfl

/-- Witness for C9 (amended), which is also the spec's own example: for
segment `((0,0),(1,0))` and point `(2,1)` the result is the nearer
endpoint `(1,0)`, not the raw projection `(2,0)`. -/
theorem closest_point_spec_witness :
    closest_point_to_node ((0, 0), (1, 0)) (2, 1) = some (1, 0) := by
  have h := closest_point_spec ((0, 0), (1, 0)) (2, 1)
    (by intro hh; rw [Prod.ext_iff] at hh; exact absurd hh.1 (by norm_num))
    (Or.inr (by
      unfold min_distance_from_point_to_line lineExpr segDen
      norm_num [Real.sqrt_one, abs_neg, abs_one]))
  rw [h]
  have hfoot : foot ((0, 0), (1, 0)) (2, 1) = ((2 : ℝ), (0 : ℝ)) := by
    unfold foot
    norm_num [Prod.ext_iff]
  rw [hfoot]
  have hnoe : node_on_edge ((0, 0), (1, 0)) ((2 : ℝ), (0 : ℝ)) = false := by
    unfold node_on_edge distance
    rw [if_pos]
    apply Real.sqrt_lt_sqrt <;> norm_num
  rw [hnoe]
  have hdist : ¬ (distance ((0, 0) : Pt) (2, 1) ≤ distance ((1, 0) : Pt) (2, 1)) := by
    unfold distance
    apply not_le.mpr
    apply Real.sqrt_lt_sqrt <;> norm_num
  rw [if_neg (by simp), if_neg hdist]

/-- Claim C3 (code bug): on the graph with edge sequence
`[self-loop at (5,5), edge (0,0)-(1,0)]` and query point `(1/2, 1)`, the
closest-point computation selects the (only) non-self-loop edge
`((0,0),(1,0))` with closest point `(1/2, 0)`, but the source indexes the
**unfiltered** edge sequence with the argmin of the loop-filtered distance
list: it splits `self.es[0]` — the self-loop — instead.  The resulting
edge set keeps `((0,0),(1,0))` intact, deletes the self-loop and wires
`(1/2, 0)` to `(5,5)`. -/
theorem add_node_to_closest_edge_bug :
    ((⟨[((5, 5), false), ((0, 0), false), ((1, 0), false)],
        [⟨(5, 5), (5, 5), 0, false⟩, ⟨(0, 0), (1, 0), 1, false⟩]⟩ :
        PlanarGraph).add_node_to_closest_edge (1 / 2, 1) false).map
      (fun g => g.edges.map (fun ed => (ed.src, ed.dst)))
      = some [(((0, 0) : Pt), ((1, 0) : Pt)),
              (((5, 5) : Pt), ((1 / 2, 0) : Pt))] := by
  have hcp : closest_point_to_node ((0, 0), (1, 0)) (1 / 2, 1)
      = some (1 / 2, 0) := by
    have hvp : vector_projection ((0, 0), (1, 0)) (1 / 2, 1)
        = some (1 / 2, 0) := by
      unfold vector_projection proj_candidates min_distance_from_point_to_line
        lineExpr segDen
      norm_num [Real.sqrt_one, abs_neg, abs_one, Prod.ext_iff]
    unfold closest_point_to_node
    rw [hvp, Option.map_some']
    have hnoe : node_on_edge ((0, 0), (1, 0)) ((1 : ℝ) / 2, (0 : ℝ)) = true := by
      unfold node_on_edge distance
      rw [if_neg]
      apply not_lt.mpr
      apply Real.sqrt_le_sqrt
      norm_num
    rw [hnoe]
    simp
  have hsplit : (⟨[((5, 5), false), ((0, 0), false), ((1, 0), false)],
      [⟨(5, 5), (5, 5), 0, false⟩, ⟨(0, 0), (1, 0), 1, false⟩]⟩ :
      PlanarGraph).split_edge_by_node ((5, 5), (5, 5)) (1 / 2, 0) false
      = some ⟨[((5, 5), false), ((0, 0), false), ((1, 0), false), ((1 / 2, 0), false)],
          [⟨(0, 0), (1, 0), 1, false⟩,
           ⟨(5, 5), (1 / 2, 0), distance (5, 5) (1 / 2, 0), false⟩]⟩ := by
    norm_num only [PlanarGraph.split_edge_by_node, PlanarGraph.add_edge,
      PlanarGraph.add_node, PlanarGraph.vertexSeq, PlanarGraph.edgesBetween,
      Edge.between, updFn,
      List.filter_cons, List.filter_nil, List.isEmpty_nil, List.isEmpty_cons,
      List.length_nil, List.length_cons, List.cons_append, List.nil_append,
      List.map_cons, List.map_nil,
      Option.bind_eq_bind, Option.some_bind, Option.getD_none,
      decide_eq_true_eq, Prod.mk.injEq, Option.some.injEq,
      PlanarGraph.mk.injEq, Edge.mk.injEq, List.cons.injEq,
      and_self, and_true, true_and, and_false, false_and,
      or_self, or_true, true_or, or_false, false_or,
      not_true, not_false_eq_true, if_true, if_false,
      Bool.false_eq_true, Bool.true_eq_false, ite_true, ite_false]
  unfold PlanarGraph.add_node_to_closest_edge
  have hfl : ([⟨(5, 5), (5, 5), 0, false⟩, ⟨(0, 0), (1, 0), 1, false⟩] :
      List Edge).filter (fun ed => ¬ ed.src = ed.dst)
      = [⟨(0, 0), (1, 0), 1, false⟩] := by
    norm_num only [List.filter_cons, List.filter_nil, decide_eq_true_eq,
      Prod.mk.injEq, and_self, and_true, true_and, and_false, false_and,
      not_true, not_false_eq_true, if_true, if_false, ite_true, ite_false]
  rw [hfl]
  have hmo : mapOpt (fun ed =>
      (closest_point_to_node (PlanarGraph.edge_to_coords ed) (1 / 2, 1)).map
        (fun q => (q, distance q (1 / 2, 1))))
      [(⟨(0, 0), (1, 0), 1, false⟩ : Edge)]
      = some [((1 / 2, 0), distance (1 / 2, 0) (1 / 2, 1))] := by
    unfold mapOpt PlanarGraph.edge_to_coords
    rw [hcp]
    rfl
  rw [hmo]
  simp only [Option.bind_eq_bind, Option.some_bind, List.isEmpty_cons,
    Bool.false_eq_true, if_false, List.map_cons, List.map_nil, argminIdx,
    List.getD_cons_zero, List.getElem?_cons_zero]
  unfold PlanarGraph.edge_to_coords
  rw [hsplit]
  rfl

/-! ## Reachability lemmas for the Steiner connectivity check -/

lemma neighborsOf_adj (G : WGraph V) (u w : V) (h : w ∈ G.neighborsOf u) :
    G.adj u w := by
  unfold WGraph.neighborsOf at h
  obtain ⟨e, he, hfe⟩ := List.mem_filterMap.mp h
  by_cases h1 : e.1 = u
  · rw [if_pos h1] at hfe
    have h3 : e.2.1 = w := Option.some.inj hfe
    subst h1
    subst h3
    exact ⟨e.2.2, Or.inl he⟩
  · rw [if_neg h1] at hfe
    by_cases h2 : e.2.1 = u
    · rw [if_pos h2] at hfe
      have h3 : e.1 = w := Option.some.inj hfe
      subst h2
      subst h3
      exact ⟨e.2.2, Or.inr he⟩
    · rw [if_neg h2] at hfe
      cases hfe

lemma simplePathsAux_reach (G : WGraph V) :
    ∀ (fuel : Nat) (u v : V) (vis : List V) (p : List V),
      p ∈ simplePathsAux G fuel u v vis → G.Reach u v := by
  intro fuel
  induction fuel with
  | zero =>
    intro u v vis p hp
    unfold simplePathsAux at hp
    by_cases huv : u = v
    · subst huv
      exact Relation.ReflTransGen.refl
    · rw [if_neg huv] at hp
      cases hp
  | succ fuel ih =>
    intro u v vis p hp
    unfold simplePathsAux at hp
    by_cases huv : u = v
    · subst huv
      exact Relation.ReflTransGen.refl
    · rw [if_neg huv] at hp
      obtain ⟨w, hw, hpw⟩ := List.mem_flatMap.mp hp
      obtain ⟨q, hq, _⟩ := List.mem_map.mp hpw
      have hwn : w ∈ G.neighborsOf u := List.mem_of_mem_filter hw
      exact Relation.ReflTransGen.head (neighborsOf_adj G u w hwn)
        (ih w v (u :: vis) q hq)

lemma simplePaths_reach (G : WGraph V) (u v : V)
    (h : G.simplePaths u v ≠ []) : G.Reach u v := by
  obtain ⟨p, hp⟩ := List.exists_mem_of_ne_nil _ h
  exact simplePathsAux_reach G _ u v [] p hp

lemma adj_symm (G : WGraph V) : Symmetric G.adj := by
  intro a b h
  obtain ⟨w, hw⟩ := h
  exact ⟨w, hw.symm⟩

lemma reach_symm (G : WGraph V) : Symmetric G.Reach :=
  Relation.ReflTransGen.symmetric (adj_symm G)

lemma spInfo_none_of_not_reach (G : WGraph V) (u v : V)
    (h : ¬ G.Reach u v) : G.spInfo u v = none := by
  unfold WGraph.spInfo
  have hsp : G.simplePaths u v = [] := by
    by_contra hne
    exact h (simplePaths_reach G u v hne)
  rw [hsp]
  rfl

lemma pairsOf_mem {α : Type} (l : List α) (a b : α) (ha : a ∈ l) (hb : b ∈ l)
    (hne : a ≠ b) : (a, b) ∈ pairsOf l ∨ (b, a) ∈ pairsOf l := by
  induction l with
  | nil => cases ha
  | cons x xs ih =>
    unfold pairsOf
    rcases List.mem_cons.mp ha with rfl | ha'
    · have hb' : b ∈ xs := by
        rcases List.mem_cons.mp hb with rfl | hbm
        · exact absurd rfl hne
        · exact hbm
      left
      exact List.mem_append_left _ (List.mem_map.mpr ⟨b, hb', rfl⟩)
    · rcases List.mem_cons.mp hb with rfl | hb'
      · right
        exact List.mem_append_left _ (List.mem_map.mpr ⟨a, ha', rfl⟩)
      · rcases ih ha' hb' with hm | hm
        · exact Or.inl (List.mem_append_right _ hm)
        · exact Or.inr (List.mem_append_right _ hm)

lemma buildClosure_none (g : PlanarGraph) (pairs : List (Pt × Pt))
    (acc : List (Pt × Pt × ℝ × List Nat)) (u v : Pt)
    (hmem : (u, v) ∈ pairs) (hnone : (g.toW).spInfo u v = none) :
    buildClosure g pairs acc = none := by
  induction pairs generalizing acc with
  | nil => cases hmem
  | cons p rest ih =>
    obtain ⟨a, b⟩ := p
    rcases List.mem_cons.mp hmem with heq | hmem'
    · obtain ⟨rfl, rfl⟩ := Prod.mk.injEq a b u v ▸ And.intro
        (congrArg Prod.fst heq.symm) (congrArg Prod.snd heq.symm)
      unfold buildClosure
      rw [hnone]
    · unfold buildClosure
      cases hsp : (g.toW).spInfo a b with
      | none => rfl
      | some dp =>
        exact ih (closureInsert acc a b dp.1 (pathEdgeIdxs g dp.2)) hmem'

lemma metric_closure_none (G : WGraph V) (t1 t2 : V)
    (h1 : t1 ∈ G.nodes) (h2 : t2 ∈ G.nodes) (hnr : ¬ G.Reach t1 t2) :
    metric_closure G = none := by
  unfold metric_closure
  split
  · rfl
  · rename_i u tail heq
    rw [if_neg]
    intro hall
    rw [List.all_eq_true] at hall
    have hget : ∀ x : V, x ∈ G.nodes → G.Reach u x := by
      intro x hx
      have hb := hall x hx
      rw [Bool.not_eq_true'] at hb
      apply simplePaths_reach
      intro hsp
      rw [hsp] at hb
      cases hb
    exact hnr (Relation.ReflTransGen.trans ((reach_symm G) (hget t1 h1))
      (hget t2 h2))

/-- Claim C2: invoking the Steiner approximation — either the
networkx-variant `steiner_tree` or the igraph-variant
`igraph_steiner_tree` — on a graph containing two terminals that are
unreachable from each other fails with an error (`none`): no partial or
empty tree is returned.  (`metric_closure` raises the connectivity
`NetworkXError`; the igraph variant hits the `reduce` over an empty edge
path.) -/
theorem steiner_disconnected_error (G : WGraph V) (T : List V) (t1 t2 : V)
    (h1 : t1 ∈ G.nodes) (h2 : t2 ∈ G.nodes) (hnr : ¬ G.Reach t1 t2)
    (g : PlanarGraph) (terms : List Pt) (s1 s2 : Pt)
    (hs1 : s1 ∈ terms) (hs2 : s2 ∈ terms)
    (hnr2 : ¬ (g.toW).Reach s1 s2) :
    steiner_tree G T = none ∧ igraph_steiner_tree g terms = none := by
  constructor
  · unfold steiner_tree
    rw [metric_closure_none G t1 t2 h1 h2 hnr]
  · unfold igraph_steiner_tree
    have hne : s1 ≠ s2 := by
      intro he
      subst he
      exact hnr2 Relation.ReflTransGen.refl
    rcases pairsOf_mem terms s1 s2 hs1 hs2 hne with hm | hm
    · rw [buildClosure_none g _ [] s1 s2 hm
        (spInfo_none_of_not_reach _ s1 s2 hnr2)]
      rfl
    · rw [buildClosure_none g _ [] s2 s1 hm
        (spInfo_none_of_not_reach _ s2 s1
          (fun hr => hnr2 ((reach_symm _) hr)))]
      rfl

/-- Witness for C2: a two-node edgeless graph for each variant, with one
terminal in each (trivially separate) component. -/
theorem steiner_disconnected_error_witness :
    steiner_tree (⟨[0, 1], []⟩ : WGraph ℕ) [0, 1] = none ∧
    igraph_steiner_tree ⟨[((0, 0), true), ((1, 1), true)], []⟩
      [(0, 0), (1, 1)] = none :=
  steiner_disconnected_error (⟨[0, 1], []⟩ : WGraph ℕ) [0, 1] 0 1
    (by simp) (by simp)
    (by
      intro h
      rcases Relation.ReflTransGen.cases_head h with h0 | ⟨c, hadj, _⟩
      · exact absurd h0 (by norm_num)
      · obtain ⟨w, hw⟩ := hadj
        rcases hw with hw | hw <;> exact absurd hw (List.not_mem_nil _))
    ⟨[((0, 0), true), ((1, 1), true)], []⟩ [(0, 0), (1, 1)] (0, 0) (1, 1)
    (by simp) (by simp)
    (by
      intro h
      rcases Relation.ReflTransGen.cases_head h with h0 | ⟨c, hadj, _⟩
      · rw [Prod.ext_iff] at h0
        exact absurd h0.1 (by norm_num)
      · obtain ⟨w, hw⟩ := hadj
        rcases hw with hw | hw <;> simp [PlanarGraph.toW] at hw)

end

end PRCLZ
